import Mathlib

/-!
Verification of the stradl task tracker's prioritization, blocking-resolution,
staleness and mutation logic.

The definitions below are a shallow embedding of the TypeScript sources:
* server/task-logic.ts  (autoUnblock, hasUnresolvedBlockers, isTaskBlocked,
  isTaskHiddenNow, getPrioritizedTasks, PRIORITY_ORDER)
* server/routes/tasks.ts (the GET /tasks view dispatch and the mutation routes)
* src/utils/staleness.ts (isStale)
* src/utils/vacationNudge.ts (getVacationNudgeRecommendation)

Conventions of the embedding:
* ISO timestamp strings are modelled as integer milliseconds (the code always
  compares them through Date.parse / getTime).
* JavaScript float arithmetic on hour quantities is modelled exactly: a test
  such as elapsedMs / 3600000 > thresholdHours is rendered as
  elapsedMs > thresholdHours * 3600000, which is the same predicate over the
  rationals.  Hour-valued settings are modelled as integers.
* Array.prototype.sort with a comparator cmp is (per ECMAScript) a stable sort
  for the total preorder "cmp a b <= 0"; it is modelled by List.insertionSort
  with that preorder, which is also stable.
* readData / writeData are modelled by passing the AppData state in and out of
  each route function; a route that fails validation returns the state it was
  given, which models "writeData is not called".
-/

namespace Stradl

/-- Priority tier of a task: the string union P0 | P1 | P2 of the source. -/
inductive Priority where
  | P0
  | P1
  | P2
deriving DecidableEq, Repr

/-- PRIORITY_ORDER from server/task-logic.ts: P0 -> 0, P1 -> 1, P2 -> 2. -/
def PRIORITY_ORDER : Priority → Nat
  | .P0 => 0
  | .P1 => 1
  | .P2 => 2

/-- Task record of the server data model (server/storage.ts with the
hiddenUntilAt field used by server/routes/tasks.ts). -/
structure Task where
  id : Nat
  title : String
  status : String
  priority : Option Priority
  createdAt : Int
  updatedAt : Int
  completedAt : Option Int
  isArchived : Bool
  hiddenUntilAt : Option Int
deriving DecidableEq, Repr

/-- Blocker record of the server data model. -/
structure Blocker where
  id : Nat
  taskId : Nat
  blockedByTaskId : Option Nat
  blockedUntilDate : Option Int
  resolved : Bool
deriving DecidableEq, Repr

/-- Settings record of the server data model, with the focusedTaskId field
used by server/routes/tasks.ts. -/
structure Settings where
  staleThresholdHours : Int
  topN : Nat
  oneTimeOffsetHours : Int
  oneTimeOffsetExpiresAt : Option Int
  vacationPromptLastShownForUpdatedAt : Option Int
  focusedTaskId : Option Nat
deriving DecidableEq, Repr

/-- AppData: the full persisted state. -/
structure AppData where
  tasks : List Task
  blockers : List Blocker
  settings : Settings
  nextTaskId : Nat
  nextBlockerId : Nat
deriving DecidableEq, Repr

/-- One pass of the autoUnblock loop body of server/task-logic.ts over a single
blocker: resolve it when its blockedUntilDate has passed or its blocking task
exists and is completed.  Returns the updated blocker and whether it changed. -/
def autoUnblockBlocker (tasks : List Task) (now : Int) (b : Blocker) : Blocker × Bool :=
  if b.resolved then (b, false)
  else
    let dateHit : Bool :=
      match b.blockedUntilDate with
      | some d => d ≤ now
      | none => false
    let taskHit : Bool :=
      match b.blockedByTaskId with
      | some tid =>
        match tasks.find? (fun t => t.id == tid) with
        | some blockingTask => blockingTask.completedAt.isSome
        | none => false
      | none => false
    if dateHit || taskHit then ({ b with resolved := true }, true) else (b, false)

/-- autoUnblock from server/task-logic.ts: resolve every expired or
dependency-completed blocker; report whether anything changed. -/
def autoUnblock (data : AppData) (now : Int) : AppData × Bool :=
  ({ data with blockers := data.blockers.map (fun b => (autoUnblockBlocker data.tasks now b).1) },
   data.blockers.any (fun b => (autoUnblockBlocker data.tasks now b).2))

/-- hasUnresolvedBlockers from server/task-logic.ts. -/
def hasUnresolvedBlockers (taskId : Nat) (data : AppData) : Bool :=
  data.blockers.any (fun b => b.taskId == taskId && !b.resolved)

/-- isTaskBlocked from server/task-logic.ts. -/
def isTaskBlocked (taskId : Nat) (data : AppData) : Bool :=
  hasUnresolvedBlockers taskId data

/-- isTaskHiddenNow from server/task-logic.ts: hidden iff hiddenUntilAt is set
and lies strictly in the future. -/
def isTaskHiddenNow (task : Task) (now : Int) : Bool :=
  match task.hiddenUntilAt with
  | none => false
  | some hiddenUntil => now < hiddenUntil

/-- The sort key of PRIORITY_ORDER[t.priority] ?? 99 used by the comparators. -/
def taskPriorityOrder (t : Task) : Nat :=
  match t.priority with
  | some p => PRIORITY_ORDER p
  | none => 99

/-- The rank comparator of getPrioritizedTasks: priority tier ascending, then
createdAt ascending.  rankLe a b models "comparator(a, b) <= 0". -/
def rankLe (a b : Task) : Bool :=
  if taskPriorityOrder a ≠ taskPriorityOrder b then
    decide (taskPriorityOrder a < taskPriorityOrder b)
  else decide (a.createdAt ≤ b.createdAt)

/-- The eligibility filter of getPrioritizedTasks from server/task-logic.ts. -/
def prioritizedFilter (data : AppData) (now : Int) (t : Task) : Bool :=
  t.priority.isSome && !t.isArchived && t.completedAt.isNone
    && !isTaskBlocked t.id data && !isTaskHiddenNow t now

/-- getPrioritizedTasks from server/task-logic.ts: the rank-eligible tasks,
stably sorted by priority tier then createdAt. -/
def getPrioritizedTasks (data : AppData) (now : Int) : List Task :=
  List.insertionSort (fun a b => rankLe a b = true)
    (data.tasks.filter (prioritizedFilter data now))

/-- The comparator of the tasks and backlog branches of GET /tasks in
server/routes/tasks.ts: priority tier ascending, then updatedAt ascending. -/
def activeViewLe (a b : Task) : Bool :=
  if taskPriorityOrder a ≠ taskPriorityOrder b then
    decide (taskPriorityOrder a < taskPriorityOrder b)
  else decide (a.updatedAt ≤ b.updatedAt)

/-- The updatedAt-ascending comparator of the ideas and blocked branches. -/
def updatedAtLe (a b : Task) : Bool :=
  decide (a.updatedAt ≤ b.updatedAt)

/-- The comparator of the hidden branch: hiddenUntilAt ascending with a missing
expiry sorting last (positive infinity), ties broken by updatedAt ascending. -/
def hiddenViewLe (a b : Task) : Bool :=
  match a.hiddenUntilAt, b.hiddenUntilAt with
  | some ha, some hb => if ha ≠ hb then decide (ha < hb) else decide (a.updatedAt ≤ b.updatedAt)
  | some _, none => true
  | none, some _ => false
  | none, none => decide (a.updatedAt ≤ b.updatedAt)

/-- The completedAt-descending comparator of the completed branch.  The filter
of that branch guarantees completedAt is present; getD 0 renders the non-null
assertion of the source. -/
def completedViewLe (a b : Task) : Bool :=
  decide (b.completedAt.getD 0 ≤ a.completedAt.getD 0)

/-- The updatedAt-descending comparator of the archive branch. -/
def archiveViewLe (a b : Task) : Bool :=
  decide (b.updatedAt ≤ a.updatedAt)

/-- clearFocusForTask from server/routes/tasks.ts. -/
def clearFocusForTask (data : AppData) (taskId : Nat) : AppData × Bool :=
  if data.settings.focusedTaskId = some taskId then
    ({ data with settings := { data.settings with focusedTaskId := none } }, true)
  else (data, false)

/-- isTaskActiveForFocus from server/routes/tasks.ts. -/
def isTaskActiveForFocus (task : Task) (data : AppData) (now : Int) : Bool :=
  !task.isArchived && task.completedAt.isNone
    && !isTaskBlocked task.id data && !isTaskHiddenNow task now

/-- clearInvalidFocus from server/routes/tasks.ts. -/
def clearInvalidFocus (data : AppData) (now : Int) : AppData × Bool :=
  match data.settings.focusedTaskId with
  | none => (data, false)
  | some fid =>
    match data.tasks.find? (fun t => t.id == fid) with
    | none => ({ data with settings := { data.settings with focusedTaskId := none } }, true)
    | some focusedTask =>
      if isTaskActiveForFocus focusedTask data now then (data, false)
      else ({ data with settings := { data.settings with focusedTaskId := none } }, true)

/-- The auto-unblock and focus-normalization passes run by GET /tasks before
filtering, together with the combined did-anything-change flag that decides
whether the route persists the state. -/
def applyReadPasses (data : AppData) (now : Int) : AppData × Bool :=
  let r1 := autoUnblock data now
  let r2 := clearInvalidFocus r1.1 now
  (r2.1, r1.2 || r2.2)

/-- The tasks branch of GET /tasks: first topN of the rank order, re-sorted by
priority then updatedAt. -/
def tasksViewList (d : AppData) (now : Int) : List Task :=
  List.insertionSort (fun a b => activeViewLe a b = true)
    ((getPrioritizedTasks d now).take d.settings.topN)

/-- The backlog branch of GET /tasks: overflow beyond topN of the rank order,
re-sorted by priority then updatedAt. -/
def backlogViewList (d : AppData) (now : Int) : List Task :=
  List.insertionSort (fun a b => activeViewLe a b = true)
    ((getPrioritizedTasks d now).drop d.settings.topN)

/-- The ideas branch of GET /tasks. -/
def ideasViewList (d : AppData) (now : Int) : List Task :=
  List.insertionSort (fun a b => updatedAtLe a b = true)
    (d.tasks.filter (fun t =>
      t.priority.isNone && !t.isArchived && t.completedAt.isNone && !isTaskHiddenNow t now))

/-- The blocked branch of GET /tasks. -/
def blockedViewList (d : AppData) (_now : Int) : List Task :=
  List.insertionSort (fun a b => updatedAtLe a b = true)
    (d.tasks.filter (fun t =>
      !t.isArchived && t.completedAt.isNone && isTaskBlocked t.id d))

/-- The hidden branch of GET /tasks. -/
def hiddenViewList (d : AppData) (now : Int) : List Task :=
  List.insertionSort (fun a b => hiddenViewLe a b = true)
    (d.tasks.filter (fun t =>
      !t.isArchived && t.completedAt.isNone && !isTaskBlocked t.id d && isTaskHiddenNow t now))

/-- The completed branch of GET /tasks. -/
def completedViewList (d : AppData) (_now : Int) : List Task :=
  List.insertionSort (fun a b => completedViewLe a b = true)
    (d.tasks.filter (fun t => t.completedAt.isSome && !t.isArchived))

/-- The archive branch of GET /tasks. -/
def archiveViewList (d : AppData) (_now : Int) : List Task :=
  List.insertionSort (fun a b => archiveViewLe a b = true)
    (d.tasks.filter (fun t => t.isArchived))

/-- GET /tasks from server/routes/tasks.ts.  tabParam is the raw query
parameter; a missing parameter behaves like the empty string, which the route
defaults to the tasks tab.  Returns the state after the two passes, the flag
saying whether that state was persisted, and the response list. -/
def getTasksView (data : AppData) (tabParam : String) (now : Int) :
    AppData × Bool × List Task :=
  let tab := if tabParam = "" then "tasks" else tabParam
  let p := applyReadPasses data now
  let d := p.1
  let filtered : List Task :=
    if tab = "tasks" then tasksViewList d now
    else if tab = "backlog" then backlogViewList d now
    else if tab = "ideas" then ideasViewList d now
    else if tab = "blocked" then blockedViewList d now
    else if tab = "hidden" then hiddenViewList d now
    else if tab = "completed" then completedViewList d now
    else if tab = "archive" then archiveViewList d now
    else []
  (d, p.2, filtered)

/-- Outcome of a mutation route: the JSON payload on success, or the 404 / 400
error response.  A route that returns an error never calls writeData. -/
inductive RouteResult (α : Type) where
  | ok (value : α)
  | notFound
  | badRequest
deriving DecidableEq, Repr

/-- A JSON body field as the routes see it, kept untyped the way req.body is. -/
inductive BodyVal where
  | undef
  | vNull
  | vStr (s : String)
  | vNum (n : Int)
  | vBool (b : Bool)
deriving DecidableEq, Repr

/-- JavaScript truthiness of a body field (NaN is not modelled). -/
def BodyVal.truthy : BodyVal → Bool
  | .undef => false
  | .vNull => false
  | .vStr s => !(s == "")
  | .vNum n => !(n == 0)
  | .vBool b => b

/-- The typeof value === string test of the routes. -/
def BodyVal.isString : BodyVal → Bool
  | .vStr _ => true
  | _ => false

/-- ALLOWED_HIDE_DURATIONS from server/routes/tasks.ts.  Only integer inputs
are modelled, so the Number.isInteger guard is subsumed by membership. -/
def ALLOWED_HIDE_DURATIONS : List Int := [15, 30, 60, 120, 240]

/-- Replace the first element satisfying p by its image under f, leaving the
rest of the list untouched: the effect of find-then-mutate in the routes. -/
def updateFirst (p : α → Bool) (f : α → α) : List α → List α
  | [] => []
  | x :: xs => if p x then f x :: xs else x :: updateFirst p f xs

/-- The dependent-blocker cascade shared by the complete route and the
archive branch of the update route: resolve every unresolved blocker whose
blockedByTaskId is the given task. -/
def resolveDependents (blockers : List Blocker) (id : Nat) : List Blocker :=
  blockers.map (fun b =>
    if b.blockedByTaskId == some id && !b.resolved then { b with resolved := true } else b)

/-- POST /tasks from server/routes/tasks.ts.  Rejects a missing, falsy or
non-string title; otherwise creates the task with a trimmed title, empty or
trimmed status, the given (falsy-normalized) priority, fresh timestamps, and
increments nextTaskId. -/
def createTask (data : AppData) (title status : BodyVal) (priority : Option Priority)
    (now : Int) : AppData × RouteResult Task :=
  if !title.truthy || !title.isString then (data, .badRequest)
  else
    match title with
    | .vStr s =>
      let task : Task :=
        { id := data.nextTaskId
          title := s.trim
          status := match status with | .vStr st => st.trim | _ => ""
          priority := priority
          createdAt := now
          updatedAt := now
          completedAt := none
          isArchived := false
          hiddenUntilAt := none }
      ({ data with tasks := data.tasks ++ [task], nextTaskId := data.nextTaskId + 1 }, .ok task)
    | _ => (data, .badRequest)

/-- The body of PUT /tasks/:id.  An outer none means the field was absent from
the request.  For priority the inner none models the falsy-to-null
normalization priority || null of the route. -/
structure UpdateBody where
  title : Option String
  status : Option String
  priority : Option (Option Priority)
  isArchived : Option Bool
deriving DecidableEq, Repr

/-- The field mutations PUT /tasks/:id applies to the found task, ending with
the unconditional updatedAt refresh. -/
def applyUpdate (body : UpdateBody) (now : Int) (t0 : Task) : Task :=
  let t1 := match body.title with | some s => { t0 with title := s.trim } | none => t0
  let t2 := match body.status with | some s => { t1 with status := s.trim } | none => t1
  let t3 := match body.priority with | some p => { t2 with priority := p } | none => t2
  let t4 := match body.isArchived with
    | some b => if b then { t3 with isArchived := b, hiddenUntilAt := none }
                else { t3 with isArchived := b }
    | none => t3
  { t4 with updatedAt := now }

/-- PUT /tasks/:id from server/routes/tasks.ts.  404 when the id is unknown;
otherwise applies the supplied fields, refreshes updatedAt, and on archiving
additionally clears focus and resolves the dependent blockers. -/
def updateTask (data : AppData) (id : Nat) (body : UpdateBody) (now : Int) :
    AppData × RouteResult Task :=
  match data.tasks.find? (fun t => t.id == id) with
  | none => (data, .notFound)
  | some t0 =>
    let data1 := { data with tasks := updateFirst (fun t => t.id == id) (applyUpdate body now) data.tasks }
    let data2 :=
      if body.isArchived == some true then
        let d := (clearFocusForTask data1 id).1
        { d with blockers := resolveDependents d.blockers id }
      else data1
    (data2, .ok (applyUpdate body now t0))

/-- POST /tasks/:id/complete from server/routes/tasks.ts: set completedAt and
updatedAt to now, resolve dependent blockers, clear focus if focused. -/
def completeTask (data : AppData) (id : Nat) (now : Int) : AppData × RouteResult Task :=
  match data.tasks.find? (fun t => t.id == id) with
  | none => (data, .notFound)
  | some t0 =>
    let data1 := { data with
      tasks := updateFirst (fun t => t.id == id)
        (fun t => { t with completedAt := some now, updatedAt := now }) data.tasks }
    let data2 := { data1 with blockers := resolveDependents data1.blockers id }
    let data3 := (clearFocusForTask data2 id).1
    (data3, .ok { t0 with completedAt := some now, updatedAt := now })

/-- POST /tasks/:id/uncomplete from server/routes/tasks.ts: clear completedAt,
refresh updatedAt.  No cascade reversal. -/
def uncompleteTask (data : AppData) (id : Nat) (now : Int) : AppData × RouteResult Task :=
  match data.tasks.find? (fun t => t.id == id) with
  | none => (data, .notFound)
  | some t0 =>
    let data1 := { data with
      tasks := updateFirst (fun t => t.id == id)
        (fun t => { t with completedAt := none, updatedAt := now }) data.tasks }
    (data1, .ok { t0 with completedAt := none, updatedAt := now })

/-- POST /tasks/:id/hide from server/routes/tasks.ts: 404 on unknown id, 400 on
a disallowed duration or a task that is not an active prioritized task;
otherwise set hiddenUntilAt to now plus the duration and clear focus if the
task was focused.  updatedAt is not touched. -/
def hideTask (data : AppData) (id : Nat) (durationMinutes : Int) (now : Int) :
    AppData × RouteResult Task :=
  match data.tasks.find? (fun t => t.id == id) with
  | none => (data, .notFound)
  | some t0 =>
    if !(ALLOWED_HIDE_DURATIONS.contains durationMinutes) then (data, .badRequest)
    else
      let isActivePrioritizedTask := !t0.isArchived && t0.completedAt.isNone
        && t0.priority.isSome && !isTaskBlocked t0.id data && !isTaskHiddenNow t0 now
      if !isActivePrioritizedTask then (data, .badRequest)
      else
        let newTasks := updateFirst (fun t => t.id == id)
          (fun t => { t with hiddenUntilAt := some (now + durationMinutes * 60000) }) data.tasks
        let data1 := { data with tasks := newTasks }
        let data2 := (clearFocusForTask data1 id).1
        (data2, .ok { t0 with hiddenUntilAt := some (now + durationMinutes * 60000) })

/-- POST /tasks/:id/unhide from server/routes/tasks.ts: clear hiddenUntilAt.
updatedAt is not touched. -/
def unhideTask (data : AppData) (id : Nat) : AppData × RouteResult Task :=
  match data.tasks.find? (fun t => t.id == id) with
  | none => (data, .notFound)
  | some t0 =>
    let newTasks := updateFirst (fun t => t.id == id)
      (fun t => { t with hiddenUntilAt := none }) data.tasks
    let data1 := { data with tasks := newTasks }
    (data1, .ok { t0 with hiddenUntilAt := none })

/-- DELETE /tasks/:id from server/routes/tasks.ts: 404 on unknown id; otherwise
clear focus if the task was focused, remove the task, and remove every blocker
whose taskId or blockedByTaskId is the deleted id. -/
def deleteTask (data : AppData) (id : Nat) : AppData × RouteResult Unit :=
  if data.tasks.all (fun t => !(t.id == id)) then (data, .notFound)
  else
    let d1 := (clearFocusForTask data id).1
    let d2 := { d1 with
      tasks := d1.tasks.eraseP (fun t => t.id == id),
      blockers := d1.blockers.filter (fun b => !(b.taskId == id) && !(b.blockedByTaskId == some id)) }
    (d2, .ok ())

/-- Task record of the browser data model (src/types.ts), which carries the
isDeleted soft-delete flag consumed by the vacation nudge. -/
structure FTask where
  id : Nat
  title : String
  status : String
  priority : Option Priority
  createdAt : Int
  updatedAt : Int
  completedAt : Option Int
  isArchived : Bool
  isDeleted : Bool
deriving DecidableEq, Repr

/-- Settings record of the browser data model (src/types.ts). -/
structure FSettings where
  staleThresholdHours : Int
  topN : Nat
  oneTimeOffsetHours : Int
  oneTimeOffsetExpiresAt : Option Int
  vacationPromptLastShownForUpdatedAt : Option Int
deriving DecidableEq, Repr

/-- isStale from src/utils/staleness.ts.  The one-time offset applies while
oneTimeOffsetExpiresAt is at-or-after now (inclusive); the task is stale iff
the elapsed time strictly exceeds the effective threshold.  The float division
elapsedMs / 3600000 > hours is modelled as elapsedMs > hours * 3600000. -/
def isStale (updatedAt : Int) (settings : FSettings) (now : Int) : Bool :=
  let hasActiveOneTimeOffset : Bool :=
    match settings.oneTimeOffsetExpiresAt with
    | some expiresAt => now ≤ expiresAt
    | none => false
  let effectiveOneTimeOffsetHours :=
    if hasActiveOneTimeOffset then settings.oneTimeOffsetHours else 0
  decide (now - updatedAt > (settings.staleThresholdHours + effectiveOneTimeOffsetHours) * 3600000)

/-- The recommendation record returned by getVacationNudgeRecommendation.
inactivityMs stands for the float inactivityHours field, kept in exact
milliseconds (hours = inactivityMs / 3600000). -/
structure VacationNudgeRecommendation where
  mostRecentActiveUpdatedAt : Int
  inactivityMs : Int
  inactivityDays : Int
  suggestedDays : Int
deriving DecidableEq, Repr

/-- The anchor scan of getVacationNudgeRecommendation: the largest updatedAt
among the given tasks (the first maximum wins ties, but the value is what the
function keeps). -/
def anchorOf (tasks : List FTask) : Option Int :=
  tasks.foldl (fun acc t =>
    match acc with
    | none => some t.updatedAt
    | some m => if m < t.updatedAt then some t.updatedAt else acc) none

/-- getVacationNudgeRecommendation from src/utils/vacationNudge.ts.  Considers
tasks with null completedAt that are neither archived nor soft-deleted; null
when there are none, when inactivity is at most 24 hours, when the dedupe
timestamp equals the anchor, or when a one-time offset expires strictly after
now; otherwise suggests max(1, floor(inactivityHours / 24)) days. -/
def getVacationNudgeRecommendation (tasks : List FTask) (settings : FSettings)
    (nowMs : Int) : Option VacationNudgeRecommendation :=
  let activeTasks := tasks.filter (fun t => t.completedAt.isNone && !t.isArchived && !t.isDeleted)
  if activeTasks.isEmpty then none
  else
    match anchorOf activeTasks with
    | none => none
    | some anchor =>
      let inactivityMs := nowMs - anchor
      if inactivityMs ≤ 86400000 then none
      else if settings.vacationPromptLastShownForUpdatedAt == some anchor then none
      else
        let hasActiveOneTimeOffset : Bool :=
          match settings.oneTimeOffsetExpiresAt with
          | some expiresAt => nowMs < expiresAt
          | none => false
        if hasActiveOneTimeOffset then none
        else
          let suggestedDays := max 1 (inactivityMs / 86400000)
          some { mostRecentActiveUpdatedAt := anchor
                 inactivityMs := inactivityMs
                 inactivityDays := suggestedDays
                 suggestedDays := suggestedDays }

/-! Spec-side definitions.  These follow the wording of the specification (not
the code) and are only used to compare the code's behaviour against it. -/

/-- The seven tab names the GET /tasks switch recognizes. -/
def recognizedTabs : List String :=
  ["tasks", "backlog", "ideas", "blocked", "hidden", "completed", "archive"]

/-- A task qualifying for the vacation nudge in the words of the claim:
completedAt is null and the task is not archived (the claim does not mention
the soft-delete flag). -/
def claimVacationQualifying (t : FTask) : Prop :=
  t.completedAt = none ∧ t.isArchived = false

/-- The null condition of the vacation-nudge claim, taken literally: no
qualifying task, or, with the anchor being the largest updatedAt among the
qualifying tasks, inactivity of at most 24 hours, an exact dedupe match, or a
one-time offset whose expiry is at-or-after now (inclusive). -/
def vacationNullClaim (tasks : List FTask) (s : FSettings) (now : Int) : Prop :=
  (∀ t ∈ tasks, ¬ claimVacationQualifying t) ∨
  (∃ a, ((∃ t ∈ tasks, claimVacationQualifying t ∧ t.updatedAt = a) ∧
         (∀ t ∈ tasks, claimVacationQualifying t → t.updatedAt ≤ a)) ∧
        (now - a ≤ 86400000 ∨
         s.vacationPromptLastShownForUpdatedAt = some a ∨
         (∃ e, s.oneTimeOffsetExpiresAt = some e ∧ now ≤ e)))

/-- A task qualifying for the vacation nudge as the code has it: completedAt
null, not archived, not soft-deleted. -/
def vacationQualifying (t : FTask) : Prop :=
  t.completedAt = none ∧ t.isArchived = false ∧ t.isDeleted = false

/-- Forgetting a task's updatedAt (used to state updatedAt-insensitivity). -/
def eraseUpdatedAt (t : Task) : Task :=
  { t with updatedAt := 0 }

/-! Concrete fixtures used by counterexamples and witnesses. -/

/-- Default settings record (the storage defaults with no focus). -/
def defaultSettings : Settings :=
  { staleThresholdHours := 48
    topN := 20
    oneTimeOffsetHours := 0
    oneTimeOffsetExpiresAt := none
    vacationPromptLastShownForUpdatedAt := none
    focusedTaskId := none }

/-- Empty state. -/
def emptyData : AppData :=
  { tasks := [], blockers := [], settings := defaultSettings, nextTaskId := 1, nextBlockerId := 1 }

/-- A plain eligible P1 task. -/
def taskA : Task :=
  { id := 1, title := "a", status := "", priority := some .P1, createdAt := 0
    updatedAt := 0, completedAt := none, isArchived := false, hiddenUntilAt := none }

/-- A second eligible P1 task, created later but updated earlier than taskB0
would suggest. -/
def taskB : Task :=
  { id := 2, title := "b", status := "", priority := some .P1, createdAt := 100
    updatedAt := 0, completedAt := none, isArchived := false, hiddenUntilAt := none }

/-- State holding just taskA. -/
def dataA : AppData :=
  { emptyData with tasks := [taskA] }

/-- The three-task fixture of the repository's own tasks-tab test: two P1
tasks whose createdAt and updatedAt orders disagree, plus one P0 task. -/
def dataRank : AppData :=
  { emptyData with tasks :=
      [{ taskA with id := 1, createdAt := 100, updatedAt := 600 },
       { taskA with id := 2, priority := some .P0, createdAt := 200, updatedAt := 300 },
       { taskA with id := 3, createdAt := 300, updatedAt := 50 }] }

/-- The dataRank tasks with all updatedAt values replaced, nothing else
changed. -/
def dataRankU : AppData :=
  { emptyData with tasks :=
      [{ taskA with id := 1, createdAt := 100, updatedAt := 999999 },
       { taskA with id := 2, priority := some .P0, createdAt := 200, updatedAt := 1 },
       { taskA with id := 3, createdAt := 300, updatedAt := 777 }] }

/-- Fixture for the delete-cascade claim: two tasks, one focused, and three
blockers of which two reference task 1. -/
def dataDel : AppData :=
  { emptyData with
    tasks := [taskA, taskB]
    blockers :=
      [{ id := 1, taskId := 1, blockedByTaskId := none, blockedUntilDate := some 50, resolved := false },
       { id := 2, taskId := 2, blockedByTaskId := some 1, blockedUntilDate := none, resolved := false },
       { id := 3, taskId := 2, blockedByTaskId := some 2, blockedUntilDate := none, resolved := true }]
    settings := { defaultSettings with focusedTaskId := some 1 } }

/-- A completed version of taskA (finished at 10). -/
def taskDone1 : Task :=
  { taskA with completedAt := some 10, updatedAt := 10 }

/-- A completed version of taskB (finished at 20). -/
def taskDone2 : Task :=
  { taskB with completedAt := some 20, updatedAt := 20 }

/-- Fixture for re-completion: two already-completed tasks. -/
def dataC10 : AppData :=
  { emptyData with tasks := [taskDone1, taskDone2] }

/-- A soft-deleted browser task that is otherwise active and long untouched. -/
def ftaskDel : FTask :=
  { id := 1, title := "a", status := "", priority := none, createdAt := 0
    updatedAt := 0, completedAt := none, isArchived := false, isDeleted := true }

/-- The same browser task without the soft-delete flag. -/
def ftaskQ : FTask :=
  { ftaskDel with isDeleted := false }

/-- Browser settings with no offset and no dedupe timestamp. -/
def fsettings0 : FSettings :=
  { staleThresholdHours := 48, topN := 20, oneTimeOffsetHours := 0
    oneTimeOffsetExpiresAt := none, vacationPromptLastShownForUpdatedAt := none }

/-- Browser settings whose one-time offset expires exactly at the probe time
360000000 (100 hours after epoch). -/
def fsettingsExp : FSettings :=
  { fsettings0 with oneTimeOffsetExpiresAt := some 360000000 }

/-- The recommendation the nudge produces for ftaskQ at 100 hours. -/
def vacRecW : VacationNudgeRecommendation :=
  { mostRecentActiveUpdatedAt := 0, inactivityMs := 360000000
    inactivityDays := 4, suggestedDays := 4 }

/-! Order instances for the view comparators, needed to reason about
sortedness of the insertion-sorted view lists. -/

instance : IsTotal Task (fun a b => activeViewLe a b = true) := by
  constructor
  intro a b
  unfold activeViewLe
  by_cases h : taskPriorityOrder a = taskPriorityOrder b <;> simp [h, Ne.symm] <;> omega

instance : IsTrans Task (fun a b => activeViewLe a b = true) := by
  constructor
  intro a b c hab hbc
  unfold activeViewLe at *
  by_cases h1 : taskPriorityOrder a = taskPriorityOrder b <;>
    by_cases h2 : taskPriorityOrder b = taskPriorityOrder c <;>
      by_cases h3 : taskPriorityOrder a = taskPriorityOrder c <;>
        simp_all <;> omega

instance : IsTotal Task (fun a b => completedViewLe a b = true) := by
  constructor
  intro a b
  simp only [completedViewLe, decide_eq_true_eq]
  omega

instance : IsTrans Task (fun a b => completedViewLe a b = true) := by
  constructor
  intro a b c hab hbc
  simp only [completedViewLe, decide_eq_true_eq] at *
  omega

/-! Helper lemmas. -/

theorem autoUnblockBlocker_idem (tasks : List Task) (now : Int) (b : Blocker) :
    autoUnblockBlocker tasks now ((autoUnblockBlocker tasks now b).1)
      = ((autoUnblockBlocker tasks now b).1, false) := by
  unfold autoUnblockBlocker
  by_cases hr : b.resolved
  · simp [hr]
  · simp only [hr, Bool.false_eq_true, if_false]
    split
    · simp
    · simp_all

theorem clearFocusForTask_tasks (data : AppData) (i : Nat) :
    (clearFocusForTask data i).1.tasks = data.tasks := by
  unfold clearFocusForTask
  split <;> rfl

theorem clearFocusForTask_blockers (data : AppData) (i : Nat) :
    (clearFocusForTask data i).1.blockers = data.blockers := by
  unfold clearFocusForTask
  split <;> rfl

theorem clearInvalidFocus_tasks (data : AppData) (now : Int) :
    (clearInvalidFocus data now).1.tasks = data.tasks := by
  unfold clearInvalidFocus
  split
  · rfl
  · split
    · rfl
    · split <;> rfl

theorem find?_updateFirst (p : α → Bool) (f : α → α) {l : List α} {t : α}
    (h : l.find? p = some t) (hp : p (f t) = true) :
    (updateFirst p f l).find? p = some (f t) := by
  induction l with
  | nil => simp at h
  | cons a l ih =>
    by_cases hpa : p a = true
    · rw [List.find?_cons_of_pos _ hpa] at h
      injection h with h
      subst h
      simp [updateFirst, hpa, List.find?_cons_of_pos _ hp]
    · rw [List.find?_cons_of_neg _ hpa] at h
      simp only [updateFirst, hpa, if_false, Bool.false_eq_true]
      rw [List.find?_cons_of_neg _ hpa]
      exact ih h

theorem map_updateFirst_of_invariant (p : α → Bool) (f : α → α) (g : α → β)
    (hg : ∀ x, g (f x) = g x) (l : List α) :
    (updateFirst p f l).map g = l.map g := by
  induction l with
  | nil => rfl
  | cons a l ih =>
    by_cases hpa : p a = true <;> simp [updateFirst, hpa, hg, ih]

theorem applyUpdate_updatedAt (body : UpdateBody) (now : Int) (t : Task) :
    (applyUpdate body now t).updatedAt = now := rfl

theorem applyUpdate_createdAt (body : UpdateBody) (now : Int) (t : Task) :
    (applyUpdate body now t).createdAt = t.createdAt := by
  rcases body with ⟨bt, bs, bp, ba⟩
  unfold applyUpdate
  cases bt <;> cases bs <;> cases bp <;> rcases ba with _ | b
  all_goals try rfl
  all_goals cases b <;> rfl

theorem applyUpdate_id (body : UpdateBody) (now : Int) (t : Task) :
    (applyUpdate body now t).id = t.id := by
  rcases body with ⟨bt, bs, bp, ba⟩
  unfold applyUpdate
  cases bt <;> cases bs <;> cases bp <;> rcases ba with _ | b
  all_goals try rfl
  all_goals cases b <;> rfl

theorem eraseP_id_eq_filter (l : List Task) (i : Nat)
    (h : (l.map Task.id).Nodup) :
    l.eraseP (fun t => t.id == i) = l.filter (fun t => !(t.id == i)) := by
  induction l with
  | nil => rfl
  | cons a l ih =>
    rw [List.map_cons, List.nodup_cons] at h
    by_cases ha : (a.id == i) = true
    · rw [List.eraseP_cons_of_pos (p := fun t : Task => t.id == i) ha,
        List.filter_cons_of_neg (by simp [ha])]
      have hid : a.id = i := by simpa using ha
      rw [List.filter_eq_self.mpr]
      intro u hu
      have hne : u.id ≠ a.id := by
        intro he
        exact h.1 (he ▸ List.mem_map_of_mem Task.id hu)
      simp [hid ▸ hne]
    · rw [List.eraseP_cons_of_neg (p := fun t : Task => t.id == i) (by simpa using ha),
        List.filter_cons_of_pos (by simp [ha])]
      rw [ih h.2]

/-! Claim theorems. -/

/-- C5: isStale(updatedAt, settings, now) returns true iff the elapsed time
strictly exceeds the effective threshold, which is staleThresholdHours plus
oneTimeOffsetHours when oneTimeOffsetExpiresAt is non-null and at-or-after now
(inclusive at the boundary), and staleThresholdHours alone otherwise. -/
theorem claim_C5_isStale_threshold (u : Int) (s : FSettings) (now : Int) :
    isStale u s now = true ↔
      ((∃ e, s.oneTimeOffsetExpiresAt = some e ∧ now ≤ e) ∧
        now - u > (s.staleThresholdHours + s.oneTimeOffsetHours) * 3600000) ∨
      ((¬ ∃ e, s.oneTimeOffsetExpiresAt = some e ∧ now ≤ e) ∧
        now - u > s.staleThresholdHours * 3600000) := by
  unfold isStale
  cases h : s.oneTimeOffsetExpiresAt with
  | none => simp [h]
  | some e =>
    by_cases he : now ≤ e
    · simp [h, he]
    · simp [h, he]

/-- C7: autoResolve (autoUnblock) is idempotent: an immediate second call with
the same time and data leaves every blocker (and the whole state) unchanged
and reports changed = false. -/
theorem claim_C7_autoResolve_idempotent (data : AppData) (now : Int) :
    autoUnblock (autoUnblock data now).1 now = ((autoUnblock data now).1, false) := by
  have key := autoUnblockBlocker_idem data.tasks now
  unfold autoUnblock
  simp only [List.map_map, List.any_map, Function.comp_def, key]
  simp

theorem trim_three_spaces : "   ".trim = "" := by
  have h1 : Substring.takeWhileAux "   " "   ".endPos Char.isWhitespace { byteIdx := 0 }
      = { byteIdx := 3 } := by
    rw [Substring.takeWhileAux.eq_def]
    rw [dif_pos (by decide), if_pos (by decide)]
    rw [(by decide : "   ".next { byteIdx := 0 } = { byteIdx := 1 })]
    rw [Substring.takeWhileAux.eq_def]
    rw [dif_pos (by decide), if_pos (by decide)]
    rw [(by decide : "   ".next { byteIdx := 1 } = { byteIdx := 2 })]
    rw [Substring.takeWhileAux.eq_def]
    rw [dif_pos (by decide), if_pos (by decide)]
    rw [(by decide : "   ".next { byteIdx := 2 } = { byteIdx := 3 })]
    rw [Substring.takeWhileAux.eq_def]
    rw [dif_neg (by decide)]
  have h2 : Substring.takeRightWhileAux "   " { byteIdx := 3 } Char.isWhitespace "   ".endPos
      = { byteIdx := 3 } := by
    rw [Substring.takeRightWhileAux.eq_def]
    rw [dif_neg (by decide)]
    decide
  show ("   ".toSubstring.trim).toString = ""
  simp only [String.toSubstring, Substring.trim, h1, h2]
  decide

/-- C4 names a code bug: a whitespace-only title is not rejected by the create
route; the route accepts it, stores the trimmed (hence empty) title and
increments nextTaskId, violating the non-empty-title invariant that the same
route enforces for the literally empty title. -/
theorem claim_C4_whitespace_title_bug :
    (createTask emptyData (BodyVal.vStr "   ") BodyVal.undef none 0).2
      = RouteResult.ok
        { id := 1, title := "", status := "", priority := none, createdAt := 0
          updatedAt := 0, completedAt := none, isArchived := false, hiddenUntilAt := none } ∧
    (createTask emptyData (BodyVal.vStr "   ") BodyVal.undef none 0).1.nextTaskId = 2 ∧
    (createTask emptyData (BodyVal.vStr "   ") BodyVal.undef none 0).1.tasks.length = 1 := by
  refine ⟨?_, rfl, rfl⟩
  have h : (createTask emptyData (BodyVal.vStr "   ") BodyVal.undef none 0).2
      = RouteResult.ok
        { id := 1, title := "   ".trim, status := "", priority := none, createdAt := 0
          updatedAt := 0, completedAt := none, isArchived := false, hiddenUntilAt := none } := rfl
  rw [h, trim_three_spaces]

/-- C3 counterexample: hiding an eligible task succeeds but leaves its
updatedAt unchanged (0, not the current time 1000000), refuting the claim that
every mutation operation, hide included, refreshes updatedAt. -/
theorem claim_C3_counterexample :
    (hideTask dataA 1 15 1000000).2
      = RouteResult.ok { taskA with hiddenUntilAt := some 1900000 } ∧
    ({ taskA with hiddenUntilAt := some 1900000 }).updatedAt = 0 ∧
    (0 : Int) ≠ 1000000 := by
  decide

/-- C3 amended: update, complete and uncomplete refresh the target task's
updatedAt to the current time (even when no field changes), while hide and
unhide leave updatedAt (and createdAt) of every task unchanged; createdAt is
never changed by any of these operations. -/
theorem claim_C3_amended (data : AppData) (id : Nat) (body : UpdateBody)
    (dur now : Int) (t : Task)
    (hfind : data.tasks.find? (fun x => x.id == id) = some t) :
    (updateTask data id body now).1.tasks.find? (fun x => x.id == id)
        = some (applyUpdate body now t) ∧
    (applyUpdate body now t).updatedAt = now ∧
    (applyUpdate body now t).createdAt = t.createdAt ∧
    (completeTask data id now).1.tasks.find? (fun x => x.id == id)
        = some { t with completedAt := some now, updatedAt := now } ∧
    ({ t with completedAt := some now, updatedAt := now }).createdAt = t.createdAt ∧
    (uncompleteTask data id now).1.tasks.find? (fun x => x.id == id)
        = some { t with completedAt := none, updatedAt := now } ∧
    (hideTask data id dur now).1.tasks.map (fun x => (x.id, x.createdAt, x.updatedAt))
        = data.tasks.map (fun x => (x.id, x.createdAt, x.updatedAt)) ∧
    (unhideTask data id).1.tasks.map (fun x => (x.id, x.createdAt, x.updatedAt))
        = data.tasks.map (fun x => (x.id, x.createdAt, x.updatedAt)) := by
  have hpt : (t.id == id) = true := by
    have h := List.find?_some hfind
    simpa using h
  refine ⟨?_, rfl, applyUpdate_createdAt body now t, ?_, rfl, ?_, ?_, ?_⟩
  · have htasks : (updateTask data id body now).1.tasks
        = updateFirst (fun x => x.id == id) (applyUpdate body now) data.tasks := by
      unfold updateTask
      rw [hfind]
      by_cases hb : (body.isArchived == some true) = true
      · simp [hb, clearFocusForTask_tasks]
      · simp [hb]
    rw [htasks]
    exact find?_updateFirst _ _ hfind (by rw [applyUpdate_id]; exact hpt)
  · have htasks : (completeTask data id now).1.tasks
        = updateFirst (fun x => x.id == id)
            (fun u => { u with completedAt := some now, updatedAt := now }) data.tasks := by
      unfold completeTask
      rw [hfind]
      simp [clearFocusForTask_tasks]
    rw [htasks]
    exact find?_updateFirst _ _ hfind hpt
  · have htasks : (uncompleteTask data id now).1.tasks
        = updateFirst (fun x => x.id == id)
            (fun u => { u with completedAt := none, updatedAt := now }) data.tasks := by
      unfold uncompleteTask
      rw [hfind]
    rw [htasks]
    exact find?_updateFirst _ _ hfind hpt
  · unfold hideTask
    rw [hfind]
    dsimp only
    split
    · rfl
    · split
      · rfl
      · simp only [clearFocusForTask_tasks]
        exact map_updateFirst_of_invariant (fun x => x.id == id)
          (fun u => { u with hiddenUntilAt := some (now + dur * 60000) })
          (fun x => (x.id, x.createdAt, x.updatedAt)) (fun x => rfl) data.tasks
  · unfold unhideTask
    rw [hfind]
    dsimp only
    exact map_updateFirst_of_invariant (fun x => x.id == id)
      (fun u => { u with hiddenUntilAt := none })
      (fun x => (x.id, x.createdAt, x.updatedAt)) (fun x => rfl) data.tasks

/-- Witness for the C3 amended theorem at a concrete state: completing task 1
refreshes its updatedAt to 5, while hiding it leaves every task's id,
createdAt and updatedAt untouched. -/
theorem claim_C3_amended_witness :
    (completeTask dataA 1 5).1.tasks.find? (fun x => x.id == 1)
        = some { taskA with completedAt := some 5, updatedAt := 5 } ∧
    (hideTask dataA 1 15 5).1.tasks.map (fun x => (x.id, x.createdAt, x.updatedAt))
        = dataA.tasks.map (fun x => (x.id, x.createdAt, x.updatedAt)) :=
  ⟨(claim_C3_amended dataA 1 ⟨none, none, none, none⟩ 15 5 taskA (by decide)).2.2.2.1,
   (claim_C3_amended dataA 1 ⟨none, none, none, none⟩ 15 5 taskA (by decide)).2.2.2.2.2.2.1⟩

/-- C9 counterexample: the empty string is not one of the seven recognized
views, yet GET /tasks with an empty tab parameter does not return the empty
list: the route defaults a falsy tab to the tasks view. -/
theorem claim_C9_counterexample :
    ("" ∉ recognizedTabs) ∧ (getTasksView dataA "" 0).2.2 ≠ ([] : List Task) := by
  decide

/-- C9 amended: for every non-empty view string that is not one of the seven
recognized views, the route still runs the autoResolve and focus-normalization
passes (persisting exactly when they changed something) and returns the empty
list. -/
theorem claim_C9_amended (data : AppData) (tabParam : String) (now : Int)
    (hne : tabParam ≠ "") (hmem : tabParam ∉ recognizedTabs) :
    getTasksView data tabParam now
      = ((applyReadPasses data now).1, (applyReadPasses data now).2, ([] : List Task)) := by
  simp only [recognizedTabs, List.mem_cons, List.not_mem_nil, or_false, not_or] at hmem
  obtain ⟨h1, h2, h3, h4, h5, h6, h7⟩ := hmem
  unfold getTasksView
  simp only [if_neg hne, if_neg h1, if_neg h2, if_neg h3, if_neg h4, if_neg h5, if_neg h6,
    if_neg h7]

/-- Witness for the C9 amended theorem: an unrecognized tab string on a
concrete state yields the post-pass state and the empty list. -/
theorem claim_C9_amended_witness :
    getTasksView dataA "bogus" 0
      = ((applyReadPasses dataA 0).1, (applyReadPasses dataA 0).2, ([] : List Task)) :=
  claim_C9_amended dataA "bogus" 0 (by decide) (by decide)

/-- C8: deleting an existing task removes exactly that task and exactly the
blockers whose taskId or blockedByTaskId equals the deleted id, leaves every
other task, blocker and settings field unchanged, and clears focusedTaskId
only when the deleted task was the focused one. -/
theorem claim_C8_delete_frame (data : AppData) (id : Nat)
    (hnodup : (data.tasks.map Task.id).Nodup)
    (hex : data.tasks.any (fun t => t.id == id) = true) :
    (deleteTask data id).2 = RouteResult.ok () ∧
    (deleteTask data id).1.tasks = data.tasks.filter (fun t => !(t.id == id)) ∧
    (deleteTask data id).1.blockers
      = data.blockers.filter (fun b => !(b.taskId == id) && !(b.blockedByTaskId == some id)) ∧
    (deleteTask data id).1.settings.focusedTaskId
      = (if data.settings.focusedTaskId = some id then none else data.settings.focusedTaskId) ∧
    (deleteTask data id).1.settings.staleThresholdHours = data.settings.staleThresholdHours ∧
    (deleteTask data id).1.settings.topN = data.settings.topN ∧
    (deleteTask data id).1.settings.oneTimeOffsetHours = data.settings.oneTimeOffsetHours ∧
    (deleteTask data id).1.settings.oneTimeOffsetExpiresAt
      = data.settings.oneTimeOffsetExpiresAt ∧
    (deleteTask data id).1.settings.vacationPromptLastShownForUpdatedAt
      = data.settings.vacationPromptLastShownForUpdatedAt ∧
    (deleteTask data id).1.nextTaskId = data.nextTaskId ∧
    (deleteTask data id).1.nextBlockerId = data.nextBlockerId := by
  have hall : (data.tasks.all (fun t => !(t.id == id))) = false := by
    rw [List.all_eq_false]
    obtain ⟨x, hx, hpx⟩ := List.any_eq_true.mp hex
    exact ⟨x, hx, by simp [hpx]⟩
  unfold deleteTask
  rw [hall]
  by_cases hf : data.settings.focusedTaskId = some id
  · simp [clearFocusForTask, hf, eraseP_id_eq_filter data.tasks id hnodup]
  · simp [clearFocusForTask, hf, eraseP_id_eq_filter data.tasks id hnodup]

/-- Witness for C8 at a concrete state: deleting the focused task 1 keeps only
the blocker that references neither side of it and keeps task 2. -/
theorem claim_C8_witness :
    (deleteTask dataDel 1).1.tasks = dataDel.tasks.filter (fun t => !(t.id == 1)) ∧
    (deleteTask dataDel 1).1.blockers
      = dataDel.blockers.filter (fun b => !(b.taskId == 1) && !(b.blockedByTaskId == some 1)) :=
  ⟨(claim_C8_delete_frame dataDel 1 (by decide) (by decide)).2.1,
   (claim_C8_delete_frame dataDel 1 (by decide) (by decide)).2.2.1⟩

/-- C1 counterexample: at the three-task state of the repository's own test,
the tasks view returns ids in the order 2, 3, 1 (priority then updatedAt),
while the first topN tasks in rank order (priority then createdAt) are 2, 1, 3;
so the active view is not presented in rank order and its order does depend on
updatedAt, refuting the claim. -/
theorem claim_C1_counterexample :
    (getTasksView dataRank "tasks" 1000).2.2.map Task.id = [2, 3, 1] ∧
    ((getPrioritizedTasks dataRank 1000).take dataRank.settings.topN).map Task.id = [2, 1, 3] ∧
    (getTasksView dataRank "tasks" 1000).2.2
      ≠ (getPrioritizedTasks dataRank 1000).take dataRank.settings.topN := by
  decide

/-- C1 amended: the active view consists of exactly the first topN
rank-eligible tasks and the backlog view of exactly the rest (a permutation of
the corresponding rank-order slice, so membership and the topN split follow
priority-then-createdAt rank), but each view is presented re-sorted by
priority tier ascending then updatedAt ascending. -/
theorem claim_C1_amended (data : AppData) (now : Int) :
    ((getTasksView data "tasks" now).2.2).Perm
        ((getPrioritizedTasks (applyReadPasses data now).1 now).take
          (applyReadPasses data now).1.settings.topN) ∧
    List.Sorted (fun a b => activeViewLe a b = true) ((getTasksView data "tasks" now).2.2) ∧
    ((getTasksView data "backlog" now).2.2).Perm
        ((getPrioritizedTasks (applyReadPasses data now).1 now).drop
          (applyReadPasses data now).1.settings.topN) ∧
    List.Sorted (fun a b => activeViewLe a b = true) ((getTasksView data "backlog" now).2.2) := by
  have hview1 : (getTasksView data "tasks" now).2.2
      = tasksViewList (applyReadPasses data now).1 now := by
    simp [getTasksView]
  have hview2 : (getTasksView data "backlog" now).2.2
      = backlogViewList (applyReadPasses data now).1 now := by
    simp [getTasksView]
  rw [hview1, hview2]
  unfold tasksViewList backlogViewList
  exact ⟨List.perm_insertionSort _ _, List.sorted_insertionSort _ _,
    List.perm_insertionSort _ _, List.sorted_insertionSort _ _⟩

theorem map_filter_congr {f : Task → Task} {p q : Task → Bool}
    (hpq : ∀ a b, f a = f b → p a = q b) :
    ∀ {l l' : List Task}, l.map f = l'.map f → (l.filter p).map f = (l'.filter q).map f := by
  intro l
  induction l with
  | nil =>
    intro l' h
    cases l' with
    | nil => simp
    | cons b l2 => simp at h
  | cons a l ih =>
    intro l' h
    cases l' with
    | nil => simp at h
    | cons b l2 =>
      simp only [List.map_cons, List.cons.injEq] at h
      have hq : q b = p a := (hpq a b h.1).symm
      cases hpa : p a with
      | false =>
        rw [List.filter_cons_of_neg (by simp [hpa]),
          List.filter_cons_of_neg (by simp [hq, hpa])]
        exact ih h.2
      | true =>
        rw [List.filter_cons_of_pos hpa, List.filter_cons_of_pos (hq.trans hpa)]
        simp only [List.map_cons]
        rw [h.1, ih h.2]

/-- C6: the ranked (prioritized) list is insensitive to updatedAt: two states
whose tasks agree on everything except updatedAt (same blockers and settings)
produce, up to the forgotten updatedAt values, the same ranked list, the same
first-topN slice and the same overflow slice — so no updatedAt change can
reorder the ranked tasks or move a task across the topN split. -/
theorem claim_C6_rank_updatedAt_insensitive (data' data : AppData) (now : Int)
    (hb : data'.blockers = data.blockers)
    (ht : data'.tasks.map eraseUpdatedAt = data.tasks.map eraseUpdatedAt)
    (hs : data'.settings = data.settings) :
    (getPrioritizedTasks data' now).map eraseUpdatedAt
        = (getPrioritizedTasks data now).map eraseUpdatedAt ∧
    ((getPrioritizedTasks data' now).take data'.settings.topN).map eraseUpdatedAt
        = ((getPrioritizedTasks data now).take data.settings.topN).map eraseUpdatedAt ∧
    ((getPrioritizedTasks data' now).drop data'.settings.topN).map eraseUpdatedAt
        = ((getPrioritizedTasks data now).drop data.settings.topN).map eraseUpdatedAt := by
  have hfields : ∀ a b : Task, eraseUpdatedAt a = eraseUpdatedAt b →
      a.id = b.id ∧ a.priority = b.priority ∧ a.isArchived = b.isArchived ∧
      a.completedAt = b.completedAt ∧ a.hiddenUntilAt = b.hiddenUntilAt := by
    intro a b h
    have e1 := congrArg Task.id h
    have e2 := congrArg Task.priority h
    have e3 := congrArg Task.isArchived h
    have e4 := congrArg Task.completedAt h
    have e5 := congrArg Task.hiddenUntilAt h
    exact ⟨e1, e2, e3, e4, e5⟩
  have hfilter : (data'.tasks.filter (prioritizedFilter data' now)).map eraseUpdatedAt
      = (data.tasks.filter (prioritizedFilter data now)).map eraseUpdatedAt := by
    refine map_filter_congr ?_ ht
    intro a b hab
    obtain ⟨h1, h2, h3, h4, h5⟩ := hfields a b hab
    simp only [prioritizedFilter, isTaskBlocked, hasUnresolvedBlockers, isTaskHiddenNow,
      h1, h2, h3, h4, h5, hb]
  have hmain : (getPrioritizedTasks data' now).map eraseUpdatedAt
      = (getPrioritizedTasks data now).map eraseUpdatedAt := by
    unfold getPrioritizedTasks
    rw [List.map_insertionSort (fun a b => rankLe a b = true) (fun a b => rankLe a b = true)
      eraseUpdatedAt _ (fun a _ b _ => Iff.rfl)]
    rw [List.map_insertionSort (fun a b => rankLe a b = true) (fun a b => rankLe a b = true)
      eraseUpdatedAt _ (fun a _ b _ => Iff.rfl)]
    rw [hfilter]
  have htop : data'.settings.topN = data.settings.topN := congrArg Settings.topN hs
  refine ⟨hmain, ?_, ?_⟩
  · rw [List.map_take, List.map_take, htop, hmain]
  · rw [List.map_drop, List.map_drop, htop, hmain]

/-- Witness for C6: swapping every updatedAt in the three-task rank fixture
leaves the ranked list (modulo updatedAt) unchanged. -/
theorem claim_C6_witness :
    (getPrioritizedTasks dataRankU 1000).map eraseUpdatedAt
      = (getPrioritizedTasks dataRank 1000).map eraseUpdatedAt :=
  (claim_C6_rank_updatedAt_insensitive dataRankU dataRank 1000
    (by decide) (by decide) (by decide)).1

theorem anchorOf_aux (l : List FTask) (m : Int) :
    ∃ a, (l.foldl (fun acc t =>
        match acc with
        | none => some t.updatedAt
        | some mm => if mm < t.updatedAt then some t.updatedAt else acc) (some m)) = some a
      ∧ m ≤ a ∧ (a = m ∨ a ∈ l.map FTask.updatedAt)
      ∧ ∀ x ∈ l.map FTask.updatedAt, x ≤ a := by
  induction l generalizing m with
  | nil => exact ⟨m, rfl, le_refl m, Or.inl rfl, by simp⟩
  | cons t l ih =>
    simp only [List.foldl_cons]
    by_cases h : m < t.updatedAt
    · rw [if_pos h]
      obtain ⟨a, ha, hma, hmem, hmax⟩ := ih t.updatedAt
      refine ⟨a, ha, by omega, ?_, ?_⟩
      · rcases hmem with he | hr
        · exact Or.inr (by simp [he])
        · exact Or.inr (by simp [hr])
      · intro x hx
        simp only [List.map_cons, List.mem_cons] at hx
        rcases hx with rfl | hx
        · exact hma
        · exact hmax x hx
    · rw [if_neg h]
      obtain ⟨a, ha, hma, hmem, hmax⟩ := ih m
      refine ⟨a, ha, hma, ?_, ?_⟩
      · rcases hmem with he | hr
        · exact Or.inl he
        · exact Or.inr (by simp [hr])
      · intro x hx
        simp only [List.map_cons, List.mem_cons] at hx
        rcases hx with rfl | hx
        · omega
        · exact hmax x hx

theorem anchorOf_mem_max (l : List FTask) (a : Int) (h : anchorOf l = some a) :
    a ∈ l.map FTask.updatedAt ∧ ∀ x ∈ l.map FTask.updatedAt, x ≤ a := by
  cases l with
  | nil => simp [anchorOf] at h
  | cons t l =>
    unfold anchorOf at h
    simp only [List.foldl_cons] at h
    obtain ⟨a', ha', hma, hmem, hmax⟩ := anchorOf_aux l t.updatedAt
    rw [ha'] at h
    injection h with h
    subst h
    constructor
    · rcases hmem with he | hr
      · simp [he]
      · simp [hr]
    · intro x hx
      simp only [List.map_cons, List.mem_cons] at hx
      rcases hx with rfl | hx
      · exact hma
      · exact hmax x hx

theorem anchorOf_ne_none (t : FTask) (l : List FTask) :
    anchorOf (t :: l) ≠ none := by
  unfold anchorOf
  simp only [List.foldl_cons]
  obtain ⟨a', ha', _, _, _⟩ := anchorOf_aux l t.updatedAt
  rw [ha']
  simp

theorem vacationPred_iff (t : FTask) :
    ((t.completedAt.isNone && !t.isArchived && !t.isDeleted) = true) ↔ vacationQualifying t := by
  simp [vacationQualifying, Option.isNone_iff_eq_none, and_assoc]

/-- C2 amended: getVacationNudgeRecommendation(tasks, settings, now) returns
null iff there is no task with null completedAt that is neither archived nor
soft-deleted, or the time since the most recently updated such task's
updatedAt (the anchor) is at most 24 hours, or the dedupe timestamp equals the
anchor exactly, or a one-time offset is active — where active means
oneTimeOffsetExpiresAt is non-null and strictly after now (an offset expiring
exactly at now no longer suppresses the nudge); otherwise the recommendation's
suggestedDays equals max(1, floor(inactivityHours / 24)). -/
theorem claim_C2_amended (tasks : List FTask) (s : FSettings) (now : Int) :
    (getVacationNudgeRecommendation tasks s now = none ↔
      (∀ t ∈ tasks, ¬ vacationQualifying t) ∨
      (∃ a, ((∃ t ∈ tasks, vacationQualifying t ∧ t.updatedAt = a) ∧
             (∀ t ∈ tasks, vacationQualifying t → t.updatedAt ≤ a)) ∧
            (now - a ≤ 86400000 ∨
             s.vacationPromptLastShownForUpdatedAt = some a ∨
             (∃ e, s.oneTimeOffsetExpiresAt = some e ∧ now < e)))) ∧
    (∀ r, getVacationNudgeRecommendation tasks s now = some r →
      r.suggestedDays = max 1 ((now - r.mostRecentActiveUpdatedAt) / 86400000)) := by
  cases hact : tasks.filter (fun t => t.completedAt.isNone && !t.isArchived && !t.isDeleted) with
  | nil =>
    have hres : getVacationNudgeRecommendation tasks s now = none := by
      unfold getVacationNudgeRecommendation
      rw [hact]
      rfl
    constructor
    · rw [hres]
      constructor
      · intro _
        left
        intro t htm hq
        have hmem : t ∈ tasks.filter
            (fun t => t.completedAt.isNone && !t.isArchived && !t.isDeleted) :=
          List.mem_filter.mpr ⟨htm, (vacationPred_iff t).mpr hq⟩
        rw [hact] at hmem
        simp at hmem
      · intro _
        rfl
    · intro r hr
      rw [hres] at hr
      simp at hr
  | cons t0 rest =>
    cases hA : anchorOf (t0 :: rest) with
    | none => exact absurd hA (anchorOf_ne_none t0 rest)
    | some a0 =>
      have hmm := anchorOf_mem_max _ _ hA
      have hmem_act : ∀ t : FTask, t ∈ t0 :: rest ↔ (t ∈ tasks ∧ vacationQualifying t) := by
        intro t
        rw [← hact, List.mem_filter, vacationPred_iff]
      constructor
      · have hnl : ¬ (∀ t ∈ tasks, ¬ vacationQualifying t) := by
          intro hall
          have h0 := (hmem_act t0).mp (List.mem_cons_self t0 rest)
          exact hall t0 h0.1 h0.2
        have hchar : ∀ a : Int,
            (((∃ t ∈ tasks, vacationQualifying t ∧ t.updatedAt = a) ∧
              (∀ t ∈ tasks, vacationQualifying t → t.updatedAt ≤ a)) ↔ a = a0) := by
          intro a
          constructor
          · rintro ⟨⟨t, htm, htq, htu⟩, hmax⟩
            have hta : t ∈ t0 :: rest := (hmem_act t).mpr ⟨htm, htq⟩
            have h1 : t.updatedAt ≤ a0 := hmm.2 _ (List.mem_map_of_mem FTask.updatedAt hta)
            obtain ⟨t1, ht1, ht1u⟩ := List.mem_map.mp hmm.1
            have h2 := (hmem_act t1).mp ht1
            have h3 : a0 ≤ a := ht1u ▸ hmax t1 h2.1 h2.2
            omega
          · rintro rfl
            constructor
            · obtain ⟨t1, ht1, ht1u⟩ := List.mem_map.mp hmm.1
              have h2 := (hmem_act t1).mp ht1
              exact ⟨t1, h2.1, h2.2, ht1u⟩
            · intro t htm htq
              exact hmm.2 _ (List.mem_map_of_mem FTask.updatedAt ((hmem_act t).mpr ⟨htm, htq⟩))
        have hRHS : ((∀ t ∈ tasks, ¬ vacationQualifying t) ∨
            (∃ a, ((∃ t ∈ tasks, vacationQualifying t ∧ t.updatedAt = a) ∧
                   (∀ t ∈ tasks, vacationQualifying t → t.updatedAt ≤ a)) ∧
                  (now - a ≤ 86400000 ∨
                   s.vacationPromptLastShownForUpdatedAt = some a ∨
                   (∃ e, s.oneTimeOffsetExpiresAt = some e ∧ now < e)))) ↔
            (now - a0 ≤ 86400000 ∨
             s.vacationPromptLastShownForUpdatedAt = some a0 ∨
             (∃ e, s.oneTimeOffsetExpiresAt = some e ∧ now < e)) := by
          constructor
          · rintro (h | ⟨a, hc, hd⟩)
            · exact (hnl h).elim
            · obtain rfl := (hchar a).mp hc
              exact hd
          · intro hd
            exact Or.inr ⟨a0, (hchar a0).mpr rfl, hd⟩
        refine Iff.trans ?_ hRHS.symm
        unfold getVacationNudgeRecommendation
        rw [hact]
        simp only [List.isEmpty_cons, Bool.false_eq_true, if_false]
        rw [hA]
        cases hOff : s.oneTimeOffsetExpiresAt with
        | none =>
          by_cases h1 : now - a0 ≤ 86400000 <;>
            by_cases h2 : s.vacationPromptLastShownForUpdatedAt = some a0 <;>
              simp [h1, h2]
        | some e =>
          by_cases h1 : now - a0 ≤ 86400000 <;>
            by_cases h2 : s.vacationPromptLastShownForUpdatedAt = some a0 <;>
              by_cases h3 : now < e <;>
                simp [h1, h2, h3]
      · intro r hr
        unfold getVacationNudgeRecommendation at hr
        rw [hact] at hr
        simp only [List.isEmpty_cons, Bool.false_eq_true, if_false] at hr
        rw [hA] at hr
        by_cases h1 : now - a0 ≤ 86400000
        · simp [h1] at hr
        · by_cases h2 : s.vacationPromptLastShownForUpdatedAt = some a0
          · simp [h1, h2] at hr
          · cases hOffv : s.oneTimeOffsetExpiresAt with
            | none =>
              simp [h1, h2, hOffv] at hr
              subst hr
              rfl
            | some e =>
              by_cases h3 : now < e
              · simp [h1, h2, hOffv, h3] at hr
              · simp [h1, h2, hOffv, h3] at hr
                subst hr
                rfl

/-- C2 counterexample: the claimed null condition fails twice on the code.
First, a soft-deleted task still counts as qualifying for the claim (which
only mentions completedAt and isArchived), so the claim predicts a
recommendation while the code returns null.  Second, with the one-time offset
expiring exactly at now the claim (inclusive boundary) predicts null while the
code (strict comparison) returns a recommendation. -/
theorem claim_C2_counterexample :
    ¬ (getVacationNudgeRecommendation [ftaskDel] fsettings0 360000000 = none ↔
       vacationNullClaim [ftaskDel] fsettings0 360000000) ∧
    ¬ (getVacationNudgeRecommendation [ftaskQ] fsettingsExp 360000000 = none ↔
       vacationNullClaim [ftaskQ] fsettingsExp 360000000) := by
  constructor
  · intro hiff
    have hnone : getVacationNudgeRecommendation [ftaskDel] fsettings0 360000000 = none := by
      decide
    have hclaim := hiff.mp hnone
    unfold vacationNullClaim claimVacationQualifying at hclaim
    rcases hclaim with h | ⟨a, ⟨⟨t, htm, hq, hu⟩, _⟩, hdisj⟩
    · exact h ftaskDel (by simp) ⟨rfl, rfl⟩
    · have ht : t = ftaskDel := by simpa using htm
      subst ht
      have ha : a = (0 : Int) := hu.symm
      subst ha
      rcases hdisj with h1 | h2 | ⟨e, he, _⟩
      · omega
      · exact absurd h2 (by simp [fsettings0])
      · exact absurd he (by simp [fsettings0])
  · intro hiff
    have hsome : getVacationNudgeRecommendation [ftaskQ] fsettingsExp 360000000 ≠ none := by
      decide
    apply hsome
    apply hiff.mpr
    unfold vacationNullClaim claimVacationQualifying
    right
    refine ⟨0, ⟨⟨ftaskQ, by simp, ⟨rfl, rfl⟩, rfl⟩, ?_⟩, ?_⟩
    · intro t htm _
      have ht : t = ftaskQ := by simpa using htm
      subst ht
      decide
    · right
      right
      exact ⟨360000000, rfl, by omega⟩

theorem find?_decomp (p : α → Bool) {l : List α} {t : α} (h : l.find? p = some t) :
    ∃ l1 l2, l = l1 ++ t :: l2 ∧ (∀ u ∈ l1, p u = false) ∧
      ∀ f : α → α, updateFirst p f l = l1 ++ f t :: l2 := by
  induction l with
  | nil => simp at h
  | cons a l ih =>
    by_cases hpa : p a = true
    · rw [List.find?_cons_of_pos _ hpa] at h
      injection h with h
      subst h
      exact ⟨[], l, rfl, by simp, fun f => by simp [updateFirst, hpa]⟩
    · rw [List.find?_cons_of_neg _ hpa] at h
      obtain ⟨l1, l2, hsplit, hl1, hupd⟩ := ih h
      refine ⟨a :: l1, l2, by rw [hsplit]; rfl, ?_, ?_⟩
      · intro u hu
        rcases List.mem_cons.mp hu with rfl | hu
        · exact Bool.eq_false_iff.mpr hpa
        · exact hl1 u hu
      · intro f
        simp [updateFirst, hpa, hupd f]

theorem head?_insertionSort_of_min {α : Type} (r : α → α → Prop) [DecidableRel r]
    [IsTotal α r] [IsTrans α r] (l : List α) (x : α) (hx : x ∈ l)
    (hmin : ∀ y ∈ l, y ≠ x → ¬ r y x) :
    (List.insertionSort r l).head? = some x := by
  have hs : List.Sorted r (List.insertionSort r l) := List.sorted_insertionSort r l
  have hperm := List.perm_insertionSort r l
  have hx' : x ∈ List.insertionSort r l := (List.mem_insertionSort r).mpr hx
  cases hsort : List.insertionSort r l with
  | nil =>
    rw [hsort] at hx'
    simp at hx'
  | cons h tail =>
    rw [hsort] at hx' hs
    simp only [List.head?_cons]
    by_cases he : h = x
    · rw [he]
    · have hxt : x ∈ tail := by
        rcases List.mem_cons.mp hx' with h1 | h1
        · exact absurd h1.symm he
        · exact h1
      have hrx : r h x := (List.sorted_cons.mp hs).1 x hxt
      have hhl : h ∈ l := by
        apply hperm.subset
        rw [hsort]
        exact List.mem_cons_self h tail
      exact absurd hrx (hmin h hhl he)

/-- C10: completing a task whose completedAt is already set is accepted and is
not a no-op: completedAt and updatedAt are overwritten with now, the
dependent-blocker cascade runs again, and (when every other completed task
finished strictly earlier) the task becomes the head of the newest-first
completed view. -/
theorem claim_C10_recomplete (data : AppData) (id : Nat) (now : Int) (t : Task) (c : Int)
    (hfind : data.tasks.find? (fun x => x.id == id) = some t)
    (_hdone : t.completedAt = some c)
    (harch : t.isArchived = false)
    (hnodup : (data.tasks.map Task.id).Nodup)
    (hmax : ∀ u ∈ data.tasks, u.id ≠ id → u.completedAt.getD (now - 1) < now) :
    (completeTask data id now).2
      = RouteResult.ok { t with completedAt := some now, updatedAt := now } ∧
    (completeTask data id now).1.blockers = resolveDependents data.blockers id ∧
    ((getTasksView (completeTask data id now).1 "completed" now).2.2).head?
      = some { t with completedAt := some now, updatedAt := now } := by
  have htid : t.id = id := by
    have h := List.find?_some hfind
    simpa using h
  obtain ⟨l1, l2, hsplit, hl1, hupd⟩ := find?_decomp (fun x : Task => x.id == id) hfind
  have hres2 : (completeTask data id now).2
      = RouteResult.ok { t with completedAt := some now, updatedAt := now } := by
    unfold completeTask
    rw [hfind]
  have hddtasks : (completeTask data id now).1.tasks
      = l1 ++ { t with completedAt := some now, updatedAt := now } :: l2 := by
    unfold completeTask
    rw [hfind]
    simp only [clearFocusForTask_tasks]
    exact hupd (fun u => { u with completedAt := some now, updatedAt := now })
  have hddblockers : (completeTask data id now).1.blockers
      = resolveDependents data.blockers id := by
    unfold completeTask
    rw [hfind]
    simp only [clearFocusForTask_blockers]
  refine ⟨hres2, hddblockers, ?_⟩
  have hview : (getTasksView (completeTask data id now).1 "completed" now).2.2
      = completedViewList (applyReadPasses (completeTask data id now).1 now).1 now := by
    simp [getTasksView]
  have hptasks : (applyReadPasses (completeTask data id now).1 now).1.tasks
      = (completeTask data id now).1.tasks := by
    unfold applyReadPasses
    rw [clearInvalidFocus_tasks]
    rfl
  rw [hview]
  unfold completedViewList
  rw [hptasks, hddtasks]
  set t2 : Task := { t with completedAt := some now, updatedAt := now } with ht2
  have hfiltered : (l1 ++ t2 :: l2).filter (fun u => u.completedAt.isSome && !u.isArchived)
      = l1.filter (fun u => u.completedAt.isSome && !u.isArchived)
        ++ t2 :: l2.filter (fun u => u.completedAt.isSome && !u.isArchived) := by
    rw [List.filter_append, List.filter_cons_of_pos (by simp [ht2, harch])]
  rw [hfiltered]
  have hl2id : ∀ u ∈ l2, u.id ≠ id := by
    rw [hsplit, List.map_append, List.map_cons] at hnodup
    have h2 := (List.nodup_append.mp hnodup).2.1
    have h3 := (List.nodup_cons.mp h2).1
    intro u hu he
    exact h3 (by rw [← htid] at he; exact he ▸ List.mem_map_of_mem Task.id hu)
  have hother : ∀ y : Task, y ∈ data.tasks → y.id ≠ id →
      (y.completedAt.isSome && !y.isArchived) = true →
      ¬ (completedViewLe y t2 = true) := by
    intro y hym hyid hyp
    obtain ⟨cy, hcy⟩ := Option.isSome_iff_exists.mp (by
      have h := hyp
      simp only [Bool.and_eq_true] at h
      exact h.1)
    have hlt : cy < now := by
      have h := hmax y hym hyid
      rw [hcy] at h
      simpa using h
    simp only [completedViewLe, ht2, Option.getD_some, hcy, decide_eq_true_eq]
    omega
  apply head?_insertionSort_of_min
  · exact List.mem_append.mpr (Or.inr (List.mem_cons_self t2 _))
  · intro y hy hne
    rcases List.mem_append.mp hy with hy1 | hy2
    · have hmem := List.mem_filter.mp hy1
      have hyid : y.id ≠ id := by
        have h := hl1 y hmem.1
        simpa using h
      exact hother y (by rw [hsplit]; exact List.mem_append.mpr (Or.inl hmem.1)) hyid hmem.2
    · rcases List.mem_cons.mp hy2 with rfl | hy3
      · exact absurd rfl hne
      · have hmem := List.mem_filter.mp hy3
        have hyid : y.id ≠ id := hl2id y hmem.1
        refine hother y ?_ hyid hmem.2
        rw [hsplit]
        exact List.mem_append.mpr (Or.inr (List.mem_cons_of_mem t hmem.1))

/-- Witness for the C2 amended theorem: the concrete 100-hour-idle state
produces a recommendation whose suggestedDays is max(1, floor(100 h / 24 h))
= 4. -/
theorem claim_C2_amended_witness :
    vacRecW.suggestedDays = max 1 ((360000000 - vacRecW.mostRecentActiveUpdatedAt) / 86400000) :=
  (claim_C2_amended [ftaskQ] fsettings0 360000000).2 vacRecW (by decide)

/-- Witness for C10: re-completing the older completed task 1 at time 100
makes it the head of the completed view. -/
theorem claim_C10_witness :
    (completeTask dataC10 1 100).2
      = RouteResult.ok { taskDone1 with completedAt := some 100, updatedAt := 100 } ∧
    ((getTasksView (completeTask dataC10 1 100).1 "completed" 100).2.2).head?
      = some { taskDone1 with completedAt := some 100, updatedAt := 100 } :=
  ⟨(claim_C10_recomplete dataC10 1 100 taskDone1 10
      (by decide) (by decide) (by decide) (by decide) (by decide)).1,
   (claim_C10_recomplete dataC10 1 100 taskDone1 10
      (by decide) (by decide) (by decide) (by decide) (by decide)).2.2⟩

end Stradl
